import Mathlib

/-!
Shallow embedding of `src/dfinity_js_backend/src/index.ts` from the
digital-will canister (Azle / Internet Computer).

The canister keeps five `StableBTreeMap` collections (users, wills,
executors, assets, beneficiaries) and exposes create / attach / query
operations.  We model each collection as an association list from the
string key to the record, with `insert` replacing an existing binding in
place and appending a new one, and `values` returning the records in
storage order.  Timestamps (`ic.time()`) are external inputs modelled as
naturals; `uuidv4()` is an external unique-id generator modelled by
passing the minted id as an input together with a freshness side
condition in the reachability relation (the spec treats uuid collisions
as negligible / out of scope).
-/

namespace DigitalWill

/-- The User record (`const User = Record({...})` in index.ts). -/
structure User where
  id : String
  name : String
  email : String
  createdAt : Nat
deriving DecidableEq, Repr

/-- The Asset record. -/
structure Asset where
  id : String
  willId : String
  name : String
  value : Nat
  createdAt : Nat
deriving DecidableEq, Repr

/-- The Beneficiary record. -/
structure Beneficiary where
  id : String
  willId : String
  name : String
  share : Nat
  createdAt : Nat
deriving DecidableEq, Repr

/-- The Will record, with embedded asset and beneficiary lists. -/
structure Will where
  id : String
  userId : String
  executorId : String
  assets : List Asset
  beneficiaries : List Beneficiary
  createdAt : Nat
  isExecuted : Bool
deriving DecidableEq, Repr

/-- The Executor record. -/
structure Executor where
  id : String
  name : String
  contact : String
  createdAt : Nat
deriving DecidableEq, Repr

/-- Payload for createUser. -/
structure UserPayload where
  name : String
  email : String
deriving DecidableEq, Repr

/-- Payload for createWill. -/
structure WillPayload where
  userId : String
  executorId : String
deriving DecidableEq, Repr

/-- Payload for addAsset. -/
structure AssetPayload where
  willId : String
  name : String
  value : Nat
deriving DecidableEq, Repr

/-- Payload for addBeneficiary. -/
structure BeneficiaryPayload where
  willId : String
  name : String
  share : Nat
deriving DecidableEq, Repr

/-- Payload for createExecutor. -/
structure ExecutorPayload where
  name : String
  contact : String
deriving DecidableEq, Repr

/-- Payload for assignExecutor. -/
structure AssignExecutorPayload where
  willId : String
  executorId : String
deriving DecidableEq, Repr

/-- `Result(T, text)` of Azle: either `Ok` with a value or `Err` with a
textual message. -/
inductive CanResult (α : Type) where
  | Ok : α → CanResult α
  | Err : String → CanResult α
deriving DecidableEq, Repr

/-- A `StableBTreeMap(n, text, T)` collection, modelled as an association
list from key to record. -/
abbrev StableMap (α : Type) := List (String × α)

/-- `storage.get(k)`: the record bound to `k`, if any. -/
def mapGet {α : Type} (m : StableMap α) (k : String) : Option α :=
  match m with
  | [] => none
  | (k', v) :: rest => if k' = k then some v else mapGet rest k

/-- `storage.insert(k, v)`: replaces the binding of `k` in place if
present, otherwise appends the new binding. -/
def mapInsert {α : Type} (m : StableMap α) (k : String) (v : α) : StableMap α :=
  match m with
  | [] => [(k, v)]
  | (k', v') :: rest =>
      if k' = k then (k, v) :: rest else (k', v') :: mapInsert rest k v

/-- `storage.values()`: all records, in storage order. -/
def mapValues {α : Type} (m : StableMap α) : List α :=
  m.map Prod.snd

/-- Keys of a collection. -/
def mapKeys {α : Type} (m : StableMap α) : List String :=
  m.map Prod.fst

/-- The five stable collections of the canister
(`usersStorage` .. `beneficiariesStorage`). -/
structure CanisterState where
  usersStorage : StableMap User
  willsStorage : StableMap Will
  executorsStorage : StableMap Executor
  assetsStorage : StableMap Asset
  beneficiariesStorage : StableMap Beneficiary
deriving DecidableEq, Repr

/-- Canister state at deployment: all five collections empty. -/
def initState : CanisterState :=
  { usersStorage := []
    willsStorage := []
    executorsStorage := []
    assetsStorage := []
    beneficiariesStorage := [] }

/-- `createUser` update method.  JS `!payload.name` is true for a string
exactly when it is empty, so the guard rejects exactly empty strings.
`newId` is the uuid minted by `uuidv4()`, `now` the value of `ic.time()`. -/
def createUser (s : CanisterState) (payload : UserPayload) (newId : String)
    (now : Nat) : CanResult User × CanisterState :=
  if payload.name = "" ∨ payload.email = "" then
    (CanResult.Err "Name and email are required.", s)
  else
    let user : User :=
      { id := newId, name := payload.name, email := payload.email, createdAt := now }
    (CanResult.Ok user, { s with usersStorage := mapInsert s.usersStorage newId user })

/-- `createExecutor` update method. -/
def createExecutor (s : CanisterState) (payload : ExecutorPayload) (newId : String)
    (now : Nat) : CanResult Executor × CanisterState :=
  if payload.name = "" ∨ payload.contact = "" then
    (CanResult.Err "Name and contact are required.", s)
  else
    let executor : Executor :=
      { id := newId, name := payload.name, contact := payload.contact, createdAt := now }
    (CanResult.Ok executor,
      { s with executorsStorage := mapInsert s.executorsStorage newId executor })

/-- `createWill` update method. -/
def createWill (s : CanisterState) (payload : WillPayload) (newId : String)
    (now : Nat) : CanResult Will × CanisterState :=
  match mapGet s.usersStorage payload.userId with
  | none => (CanResult.Err "User not found.", s)
  | some _ =>
      match mapGet s.executorsStorage payload.executorId with
      | none => (CanResult.Err "Executor not found.", s)
      | some _ =>
          let will : Will :=
            { id := newId, userId := payload.userId, executorId := payload.executorId,
              assets := [], beneficiaries := [], createdAt := now, isExecuted := false }
          (CanResult.Ok will, { s with willsStorage := mapInsert s.willsStorage newId will })

/-- `addAsset` update method: appends the new asset to the will's embedded
list, re-stores the will, and stores the asset standalone.  Returns
`Ok(null)`, modelled as `CanResult.Ok ()`. -/
def addAsset (s : CanisterState) (payload : AssetPayload) (assetId : String)
    (now : Nat) : CanResult Unit × CanisterState :=
  match mapGet s.willsStorage payload.willId with
  | none => (CanResult.Err "Will not found.", s)
  | some will =>
      let asset : Asset :=
        { id := assetId, willId := payload.willId, name := payload.name,
          value := payload.value, createdAt := now }
      let will' : Will := { will with assets := will.assets ++ [asset] }
      (CanResult.Ok (),
        { s with
            willsStorage := mapInsert s.willsStorage payload.willId will'
            assetsStorage := mapInsert s.assetsStorage assetId asset })

/-- `addBeneficiary` update method, mirroring `addAsset`. -/
def addBeneficiary (s : CanisterState) (payload : BeneficiaryPayload)
    (beneficiaryId : String) (now : Nat) : CanResult Unit × CanisterState :=
  match mapGet s.willsStorage payload.willId with
  | none => (CanResult.Err "Will not found.", s)
  | some will =>
      let beneficiary : Beneficiary :=
        { id := beneficiaryId, willId := payload.willId, name := payload.name,
          share := payload.share, createdAt := now }
      let will' : Will :=
        { will with beneficiaries := will.beneficiaries ++ [beneficiary] }
      (CanResult.Ok (),
        { s with
            willsStorage := mapInsert s.willsStorage payload.willId will'
            beneficiariesStorage := mapInsert s.beneficiariesStorage beneficiaryId beneficiary })

/-- `assignExecutor` update method: overwrites the will's `executorId`
field and re-stores it.  Returns `Ok(null)`. -/
def assignExecutor (s : CanisterState) (payload : AssignExecutorPayload) :
    CanResult Unit × CanisterState :=
  match mapGet s.willsStorage payload.willId with
  | none => (CanResult.Err "Will not found.", s)
  | some will =>
      match mapGet s.executorsStorage payload.executorId with
      | none => (CanResult.Err "Executor not found.", s)
      | some _ =>
          let will' : Will := { will with executorId := payload.executorId }
          (CanResult.Ok (),
            { s with willsStorage := mapInsert s.willsStorage payload.willId will' })

/-- `getUser` query method. -/
def getUser (s : CanisterState) (userId : String) : CanResult User × CanisterState :=
  match mapGet s.usersStorage userId with
  | none => (CanResult.Err "User not found.", s)
  | some user => (CanResult.Ok user, s)

/-- `getAllUsers` query method. -/
def getAllUsers (s : CanisterState) : CanResult (List User) × CanisterState :=
  let users := mapValues s.usersStorage
  if users.length = 0 then (CanResult.Err "No users found.", s)
  else (CanResult.Ok users, s)

/-- `getExecutor` query method. -/
def getExecutor (s : CanisterState) (executorId : String) :
    CanResult Executor × CanisterState :=
  match mapGet s.executorsStorage executorId with
  | none => (CanResult.Err "Executor not found.", s)
  | some executor => (CanResult.Ok executor, s)

/-- `getAllExecutors` query method. -/
def getAllExecutors (s : CanisterState) : CanResult (List Executor) × CanisterState :=
  let executors := mapValues s.executorsStorage
  if executors.length = 0 then (CanResult.Err "No executors found.", s)
  else (CanResult.Ok executors, s)

/-- `getWill` query method. -/
def getWill (s : CanisterState) (willId : String) : CanResult Will × CanisterState :=
  match mapGet s.willsStorage willId with
  | none => (CanResult.Err "Will not found.", s)
  | some will => (CanResult.Ok will, s)

/-- `getAllWills` query method. -/
def getAllWills (s : CanisterState) : CanResult (List Will) × CanisterState :=
  let wills := mapValues s.willsStorage
  if wills.length = 0 then (CanResult.Err "No wills found.", s)
  else (CanResult.Ok wills, s)

/-- One invocation of a canister method, with the externally supplied
uuid and timestamp (where the method mints an id / reads the clock)
recorded as parameters. -/
inductive Op where
  | createUser : UserPayload → String → Nat → Op
  | createExecutor : ExecutorPayload → String → Nat → Op
  | createWill : WillPayload → String → Nat → Op
  | addAsset : AssetPayload → String → Nat → Op
  | addBeneficiary : BeneficiaryPayload → String → Nat → Op
  | assignExecutor : AssignExecutorPayload → Op
  | getUser : String → Op
  | getAllUsers : Op
  | getExecutor : String → Op
  | getAllExecutors : Op
  | getWill : String → Op
  | getAllWills : Op
deriving DecidableEq, Repr

/-- State after running one operation. -/
def applyOp (s : CanisterState) : Op → CanisterState
  | Op.createUser p i t => (createUser s p i t).2
  | Op.createExecutor p i t => (createExecutor s p i t).2
  | Op.createWill p i t => (createWill s p i t).2
  | Op.addAsset p i t => (addAsset s p i t).2
  | Op.addBeneficiary p i t => (addBeneficiary s p i t).2
  | Op.assignExecutor p => (assignExecutor s p).2
  | Op.getUser i => (getUser s i).2
  | Op.getAllUsers => (getAllUsers s).2
  | Op.getExecutor i => (getExecutor s i).2
  | Op.getAllExecutors => (getAllExecutors s).2
  | Op.getWill i => (getWill s i).2
  | Op.getAllWills => (getAllWills s).2

/-- The textual error produced by one operation, if it fails. -/
def opErr (s : CanisterState) : Op → Option String
  | Op.createUser p i t =>
      match (createUser s p i t).1 with
      | CanResult.Err m => some m
      | CanResult.Ok _ => none
  | Op.createExecutor p i t =>
      match (createExecutor s p i t).1 with
      | CanResult.Err m => some m
      | CanResult.Ok _ => none
  | Op.createWill p i t =>
      match (createWill s p i t).1 with
      | CanResult.Err m => some m
      | CanResult.Ok _ => none
  | Op.addAsset p i t =>
      match (addAsset s p i t).1 with
      | CanResult.Err m => some m
      | CanResult.Ok _ => none
  | Op.addBeneficiary p i t =>
      match (addBeneficiary s p i t).1 with
      | CanResult.Err m => some m
      | CanResult.Ok _ => none
  | Op.assignExecutor p =>
      match (assignExecutor s p).1 with
      | CanResult.Err m => some m
      | CanResult.Ok _ => none
  | Op.getUser i =>
      match (getUser s i).1 with
      | CanResult.Err m => some m
      | CanResult.Ok _ => none
  | Op.getAllUsers =>
      match (getAllUsers s).1 with
      | CanResult.Err m => some m
      | CanResult.Ok _ => none
  | Op.getExecutor i =>
      match (getExecutor s i).1 with
      | CanResult.Err m => some m
      | CanResult.Ok _ => none
  | Op.getAllExecutors =>
      match (getAllExecutors s).1 with
      | CanResult.Err m => some m
      | CanResult.Ok _ => none
  | Op.getWill i =>
      match (getWill s i).1 with
      | CanResult.Err m => some m
      | CanResult.Ok _ => none
  | Op.getAllWills =>
      match (getAllWills s).1 with
      | CanResult.Err m => some m
      | CanResult.Ok _ => none

/-- The uuid an operation mints, if it mints one. -/
def mintedId : Op → Option String
  | Op.createUser _ i _ => some i
  | Op.createExecutor _ i _ => some i
  | Op.createWill _ i _ => some i
  | Op.addAsset _ i _ => some i
  | Op.addBeneficiary _ i _ => some i
  | _ => none

/-- All identifiers already used as keys in any of the five collections. -/
def stateIds (s : CanisterState) : List String :=
  mapKeys s.usersStorage ++ mapKeys s.willsStorage ++ mapKeys s.executorsStorage ++
    mapKeys s.assetsStorage ++ mapKeys s.beneficiariesStorage

/-- Admissibility of one invocation: the uuid generator never returns an
identifier already in use (the globally-unique-ids contract of §4.1 of
the design, treated as an external guarantee). -/
def opFresh (s : CanisterState) (op : Op) : Bool :=
  match mintedId op with
  | some i => decide (i ∉ stateIds s)
  | none => true

/-- States reachable from deployment by any sequence of method
invocations with admissibly minted uuids. -/
inductive Reachable : CanisterState → Prop where
  | init : Reachable initState
  | step : ∀ (s : CanisterState) (op : Op), Reachable s → opFresh s op = true →
      Reachable (applyOp s op)

/-- A concrete run: Alice, an executor Bob, a will, one asset and one
beneficiary, used to witness the reachability theorems. -/
def demoOps : List Op :=
  [ Op.createUser { name := "Alice", email := "alice@x.com" } "u1" 0,
    Op.createExecutor { name := "Bob", contact := "bob@x.com" } "e1" 1,
    Op.createWill { userId := "u1", executorId := "e1" } "w1" 2,
    Op.addAsset { willId := "w1", name := "Car", value := 10000 } "a1" 3,
    Op.addBeneficiary { willId := "w1", name := "Carol", share := 100 } "b1" 4 ]

/-- Fold a list of operations over a state. -/
def applyOps (s : CanisterState) (ops : List Op) : CanisterState :=
  ops.foldl applyOp s

/-- State after creating the user, the executor and the will of the demo
run (before any asset is attached). -/
def demoState3 : CanisterState :=
  applyOps initState (demoOps.take 3)

/-- State after the whole demo run. -/
def demoState : CanisterState :=
  applyOps initState demoOps

/-- All operations in the list mint fresh uuids when run in sequence. -/
def opsFresh : CanisterState → List Op → Bool
  | _, [] => true
  | s, op :: rest => opFresh s op && opsFresh (applyOp s op) rest

/-- Dual-write consistency of one will record: its embedded lists are
exactly the standalone records carrying its id, in storage order. -/
def willConsistent (assetsS : StableMap Asset)
    (beneficiariesS : StableMap Beneficiary) (w : Will) : Prop :=
  w.assets = (mapValues assetsS).filter (fun a => a.willId == w.id) ∧
  w.beneficiaries = (mapValues beneficiariesS).filter (fun b => b.willId == w.id)

/-- The inductive invariant: will keys are duplicate-free, every stored
will carries its key as `id`, every stored will is dual-write consistent,
and every standalone asset / beneficiary references a stored will. -/
def StateInv (s : CanisterState) : Prop :=
  (mapKeys s.willsStorage).Nodup ∧
  (∀ k w, (k, w) ∈ s.willsStorage → w.id = k) ∧
  (∀ k w, (k, w) ∈ s.willsStorage →
      willConsistent s.assetsStorage s.beneficiariesStorage w) ∧
  (∀ a ∈ mapValues s.assetsStorage, a.willId ∈ mapKeys s.willsStorage) ∧
  (∀ b ∈ mapValues s.beneficiariesStorage, b.willId ∈ mapKeys s.willsStorage)

/-- No stored will has `isExecuted = true`. -/
def ExecFlagInv (s : CanisterState) : Prop :=
  ∀ k w, (k, w) ∈ s.willsStorage → w.isExecuted = false

/-- The will stored in `demoState3` (no attachments yet). -/
def demoWill3 : Will :=
  { id := "w1", userId := "u1", executorId := "e1", assets := [],
    beneficiaries := [], createdAt := 2, isExecuted := false }

/-- The will stored in `demoState`. -/
def demoWill : Will :=
  { id := "w1", userId := "u1", executorId := "e1",
    assets := [{ id := "a1", willId := "w1", name := "Car", value := 10000, createdAt := 3 }],
    beneficiaries := [{ id := "b1", willId := "w1", name := "Carol", share := 100, createdAt := 4 }],
    createdAt := 2, isExecuted := false }

/-- The asset payload of the demo run. -/
def demoCarPayload : AssetPayload :=
  { willId := "w1", name := "Car", value := 10000 }

/-- The asset record the demo run creates. -/
def demoCarAsset : Asset :=
  { id := "a1", willId := "w1", name := "Car", value := 10000, createdAt := 3 }

/-- A second executor, added on top of the demo run. -/
def demoExecutor2 : Executor :=
  { id := "e2", name := "Eve", contact := "eve@x.com", createdAt := 5 }

/-- The demo state extended with a second executor. -/
def demoState6 : CanisterState :=
  applyOp demoState (Op.createExecutor { name := "Eve", contact := "eve@x.com" } "e2" 5)

/-- The will a successful `createWill` call builds and returns. -/
def newWillRecord (p : WillPayload) (newId : String) (now : Nat) : Will :=
  { id := newId, userId := p.userId, executorId := p.executorId,
    assets := [], beneficiaries := [], createdAt := now, isExecuted := false }

/-- Folding admissible operations over a reachable state stays reachable. -/
theorem reachable_applyOps (s : CanisterState) (ops : List Op)
    (hs : Reachable s) (h : opsFresh s ops = true) :
    Reachable (applyOps s ops) := by
  induction ops generalizing s with
  | nil => exact hs
  | cons op rest ih =>
      rw [opsFresh, Bool.and_eq_true] at h
      have : applyOps s (op :: rest) = applyOps (applyOp s op) rest := by
        simp [applyOps, List.foldl]
      rw [this]
      exact ih (applyOp s op) (Reachable.step s op hs h.1) h.2

/-- The value list has length zero exactly when the collection is empty. -/
theorem mapValues_length_eq_zero_iff {α : Type} (m : StableMap α) :
    (mapValues m).length = 0 ↔ m = [] := by
  simp [mapValues, List.length_eq_zero]

/-- A successful lookup comes from an entry of the list. -/
theorem mapGet_mem {α : Type} (m : StableMap α) (k : String) (v : α)
    (h : mapGet m k = some v) : (k, v) ∈ m := by
  induction m with
  | nil => simp [mapGet] at h
  | cons hd tl ih =>
      rw [mapGet] at h
      split at h
      · rename_i heq
        cases h
        simp_all [Prod.ext_iff]
      · exact List.mem_cons_of_mem hd (ih h)

/-- A successful lookup means the key is present. -/
theorem mem_keys_of_get {α : Type} (m : StableMap α) (k : String) (v : α)
    (h : mapGet m k = some v) : k ∈ mapKeys m := by
  have := mapGet_mem m k v h
  exact List.mem_map_of_mem Prod.fst this

/-- Unfolding lemma for `mapKeys`. -/
@[simp] theorem mapKeys_def {α : Type} (m : StableMap α) :
    mapKeys m = m.map Prod.fst := rfl

/-- Unfolding lemma for `mapValues`. -/
@[simp] theorem mapValues_def {α : Type} (m : StableMap α) :
    mapValues m = m.map Prod.snd := rfl

/-- An absent key looks up to `none`. -/
theorem mapGet_eq_none_of_not_mem {α : Type} (m : StableMap α) (k : String)
    (h : k ∉ mapKeys m) : mapGet m k = none := by
  induction m with
  | nil => rfl
  | cons hd tl ih =>
      rw [mapGet]
      simp only [mapKeys_def, List.map_cons, List.mem_cons] at h
      push_neg at h
      rw [if_neg fun hk => h.1 hk.symm]
      exact ih h.2

/-- Looking up the key just inserted yields the new record. -/
theorem mapGet_insert_self {α : Type} (m : StableMap α) (k : String) (v : α) :
    mapGet (mapInsert m k v) k = some v := by
  induction m with
  | nil => simp [mapInsert, mapGet]
  | cons hd tl ih =>
      rw [mapInsert]
      split
      · simp [mapGet]
      · rename_i hne
        rw [mapGet, if_neg hne]
        exact ih

/-- Looking up another key is unchanged by an insert. -/
theorem mapGet_insert_other {α : Type} (m : StableMap α) (k k' : String) (v : α)
    (h : k' ≠ k) : mapGet (mapInsert m k v) k' = mapGet m k' := by
  induction m with
  | nil => simp [mapInsert, mapGet, Ne.symm h]
  | cons hd tl ih =>
      rw [mapInsert]
      by_cases hk : hd.1 = k
      · rw [if_pos hk, mapGet, if_neg fun hh => h hh.symm, mapGet, hk,
          if_neg fun hh => h hh.symm]
      · rw [if_neg hk, mapGet, mapGet]
        by_cases hk' : hd.1 = k'
        · rw [if_pos hk', if_pos hk']
        · rw [if_neg hk', if_neg hk']
          exact ih

/-- Inserting at a present key keeps the key list unchanged. -/
theorem mapKeys_insert_of_mem {α : Type} (m : StableMap α) (k : String) (v : α)
    (h : k ∈ mapKeys m) : mapKeys (mapInsert m k v) = mapKeys m := by
  induction m with
  | nil => simp at h
  | cons hd tl ih =>
      rw [mapInsert]
      by_cases hk : hd.1 = k
      · simp [hk]
      · simp only [mapKeys_def, List.map_cons, List.mem_cons] at h
        rcases h with h1 | h1
        · exact absurd h1.symm hk
        · have ih' := ih (by simpa using h1)
          simp only [mapKeys_def, List.map_cons] at ih' ⊢
          rw [if_neg hk]
          simp [ih']

/-- Inserting at a fresh key appends it to the key list. -/
theorem mapKeys_insert_of_not_mem {α : Type} (m : StableMap α) (k : String) (v : α)
    (h : k ∉ mapKeys m) : mapKeys (mapInsert m k v) = mapKeys m ++ [k] := by
  induction m with
  | nil => simp [mapInsert]
  | cons hd tl ih =>
      simp only [mapKeys_def, List.map_cons, List.mem_cons] at h
      push_neg at h
      rw [mapInsert, if_neg fun hk => h.1 hk.symm]
      have ih' := ih (by simpa using h.2)
      simp only [mapKeys_def, List.map_cons] at ih' ⊢
      simp [ih']

/-- Inserting at a fresh key appends the record to the value list. -/
theorem mapValues_insert_of_not_mem {α : Type} (m : StableMap α) (k : String) (v : α)
    (h : k ∉ mapKeys m) : mapValues (mapInsert m k v) = mapValues m ++ [v] := by
  induction m with
  | nil => simp [mapInsert]
  | cons hd tl ih =>
      simp only [mapKeys_def, List.map_cons, List.mem_cons] at h
      push_neg at h
      rw [mapInsert, if_neg fun hk => h.1 hk.symm]
      have ih' := ih (by simpa using h.2)
      simp only [mapValues_def, List.map_cons] at ih' ⊢
      simp [ih']

/-- With no duplicate keys, an entry of the list after an insert is either
the inserted binding or an untouched entry with a different key. -/
theorem mem_mapInsert {α : Type} (m : StableMap α) (k : String) (v : α)
    (p : String × α) (hnd : (mapKeys m).Nodup) (h : p ∈ mapInsert m k v) :
    p = (k, v) ∨ (p ∈ m ∧ p.1 ≠ k) := by
  induction m with
  | nil => simp [mapInsert] at h; exact Or.inl h
  | cons hd tl ih =>
      rw [mapKeys, List.map_cons, List.nodup_cons] at hnd
      rw [mapInsert] at h
      split at h
      · rename_i heq
        rcases List.mem_cons.mp h with h1 | h1
        · exact Or.inl h1
        · refine Or.inr ⟨List.mem_cons_of_mem hd h1, ?_⟩
          intro hk
          exact hnd.1 (heq ▸ hk ▸ List.mem_map_of_mem Prod.fst h1)
      · rename_i hne
        rcases List.mem_cons.mp h with h1 | h1
        · exact Or.inr ⟨h1 ▸ List.mem_cons_self hd tl, by
            rw [h1]; exact hne⟩
        · rcases ih hnd.2 h1 with h2 | h2
          · exact Or.inl h2
          · exact Or.inr ⟨List.mem_cons_of_mem hd h2.1, h2.2⟩

/-- The invariant only looks at the wills, assets and beneficiaries
collections. -/
theorem stateInv_congr (s s' : CanisterState)
    (hw : s'.willsStorage = s.willsStorage)
    (ha : s'.assetsStorage = s.assetsStorage)
    (hb : s'.beneficiariesStorage = s.beneficiariesStorage)
    (h : StateInv s) : StateInv s' := by
  unfold StateInv willConsistent at h ⊢
  rw [hw, ha, hb]
  exact h

/-- The invariant holds at deployment. -/
theorem stateInv_init : StateInv initState := by
  refine ⟨?_, ?_, ?_, ?_, ?_⟩ <;> simp [initState, StateInv]

/-- The uuid freshness guarantee, extracted. -/
theorem opFresh_minted (s : CanisterState) (op : Op) (i : String)
    (hf : opFresh s op = true) (hm : mintedId op = some i) : i ∉ stateIds s := by
  unfold opFresh at hf
  rw [hm] at hf
  exact of_decide_eq_true hf

/-- `getUser` leaves the state unchanged. -/
theorem getUser_state (s : CanisterState) (i : String) : (getUser s i).2 = s := by
  unfold getUser; split <;> rfl

/-- `getAllUsers` leaves the state unchanged. -/
theorem getAllUsers_state (s : CanisterState) : (getAllUsers s).2 = s := by
  simp only [getAllUsers]; split <;> rfl

/-- `getExecutor` leaves the state unchanged. -/
theorem getExecutor_state (s : CanisterState) (i : String) : (getExecutor s i).2 = s := by
  unfold getExecutor; split <;> rfl

/-- `getAllExecutors` leaves the state unchanged. -/
theorem getAllExecutors_state (s : CanisterState) : (getAllExecutors s).2 = s := by
  simp only [getAllExecutors]; split <;> rfl

/-- `getWill` leaves the state unchanged. -/
theorem getWill_state (s : CanisterState) (i : String) : (getWill s i).2 = s := by
  unfold getWill; split <;> rfl

/-- `getAllWills` leaves the state unchanged. -/
theorem getAllWills_state (s : CanisterState) : (getAllWills s).2 = s := by
  simp only [getAllWills]; split <;> rfl

/-- One admissible operation preserves the invariant. -/
theorem stateInv_step (s : CanisterState) (op : Op) (hinv : StateInv s)
    (hf : opFresh s op = true) : StateInv (applyOp s op) := by
  cases op with
  | createUser p i t =>
      refine stateInv_congr s _ ?_ ?_ ?_ hinv <;>
        (simp only [applyOp, createUser]; split <;> rfl)
  | createExecutor p i t =>
      refine stateInv_congr s _ ?_ ?_ ?_ hinv <;>
        (simp only [applyOp, createExecutor]; split <;> rfl)
  | getUser i => rw [applyOp, getUser_state]; exact hinv
  | getAllUsers => rw [applyOp, getAllUsers_state]; exact hinv
  | getExecutor i => rw [applyOp, getExecutor_state]; exact hinv
  | getAllExecutors => rw [applyOp, getAllExecutors_state]; exact hinv
  | getWill i => rw [applyOp, getWill_state]; exact hinv
  | getAllWills => rw [applyOp, getAllWills_state]; exact hinv
  | createWill p i t =>
      have hi : i ∉ stateIds s := opFresh_minted s _ i hf rfl
      simp only [stateIds, List.mem_append] at hi
      push_neg at hi
      obtain ⟨⟨⟨⟨hiu, hiw⟩, hie⟩, hia⟩, hib⟩ := hi
      simp only [applyOp, createWill]
      cases hgu : mapGet s.usersStorage p.userId with
      | none => exact hinv
      | some u =>
          cases hge : mapGet s.executorsStorage p.executorId with
          | none => exact hinv
          | some e =>
              obtain ⟨hnd, hids, hcons, hA, hB⟩ := hinv
              refine ⟨?_, ?_, ?_, ?_, ?_⟩
              · dsimp only
                rw [mapKeys_insert_of_not_mem _ _ _ hiw, List.nodup_append]
                refine ⟨hnd, List.nodup_singleton i, ?_⟩
                rw [List.disjoint_singleton]
                exact hiw
              · intro k w hmem
                rcases mem_mapInsert _ _ _ _ hnd hmem with h1 | h1
                · injection h1 with h1a h1b
                  subst h1a
                  subst h1b
                  rfl
                · exact hids k w h1.1
              · intro k w hmem
                dsimp only at hmem ⊢
                rcases mem_mapInsert _ _ _ _ hnd hmem with h1 | h1
                · injection h1 with h1a h1b
                  subst h1a
                  subst h1b
                  unfold willConsistent
                  dsimp only
                  constructor
                  · symm
                    rw [List.filter_eq_nil_iff]
                    intro a ha hpa
                    rw [beq_iff_eq] at hpa
                    exact hiw (hpa ▸ hA a ha)
                  · symm
                    rw [List.filter_eq_nil_iff]
                    intro b hb hpb
                    rw [beq_iff_eq] at hpb
                    exact hiw (hpb ▸ hB b hb)
                · exact hcons k w h1.1
              · dsimp only
                rw [mapKeys_insert_of_not_mem _ _ _ hiw]
                intro a ha
                exact List.mem_append_left _ (hA a ha)
              · dsimp only
                rw [mapKeys_insert_of_not_mem _ _ _ hiw]
                intro b hb
                exact List.mem_append_left _ (hB b hb)
  | addAsset p i t =>
      have hi : i ∉ stateIds s := opFresh_minted s _ i hf rfl
      simp only [stateIds, List.mem_append] at hi
      push_neg at hi
      obtain ⟨⟨⟨⟨hiu, hiw⟩, hie⟩, hia⟩, hib⟩ := hi
      simp only [applyOp, addAsset]
      cases hg : mapGet s.willsStorage p.willId with
      | none => exact hinv
      | some will =>
          obtain ⟨hnd, hids, hcons, hA, hB⟩ := hinv
          have hmemW : (p.willId, will) ∈ s.willsStorage := mapGet_mem _ _ _ hg
          have hwid : will.id = p.willId := hids _ _ hmemW
          have hkmem : p.willId ∈ mapKeys s.willsStorage := mem_keys_of_get _ _ _ hg
          refine ⟨?_, ?_, ?_, ?_, ?_⟩
          · dsimp only
            rw [mapKeys_insert_of_mem _ _ _ hkmem]
            exact hnd
          · intro k w hmem
            dsimp only at hmem
            rcases mem_mapInsert _ _ _ _ hnd hmem with h1 | h1
            · injection h1 with h1a h1b
              subst h1a
              subst h1b
              exact hwid
            · exact hids k w h1.1
          · intro k w hmem
            dsimp only at hmem ⊢
            rcases mem_mapInsert _ _ _ _ hnd hmem with h1 | h1
            · injection h1 with h1a h1b
              subst h1a
              subst h1b
              unfold willConsistent
              dsimp only
              constructor
              · rw [mapValues_insert_of_not_mem _ _ _ hia, List.filter_append,
                  ← (hcons _ _ hmemW).1]
                simp [hwid]
              · exact (hcons _ _ hmemW).2
            · have hwk : w.id = k := hids _ _ h1.1
              unfold willConsistent
              constructor
              · rw [mapValues_insert_of_not_mem _ _ _ hia, List.filter_append,
                  ← (hcons _ _ h1.1).1]
                simp [hwk, Ne.symm h1.2]
              · exact (hcons _ _ h1.1).2
          · dsimp only
            rw [mapValues_insert_of_not_mem _ _ _ hia,
              mapKeys_insert_of_mem _ _ _ hkmem]
            intro a ha
            rcases List.mem_append.mp ha with h2 | h2
            · exact hA a h2
            · rw [List.mem_singleton.mp h2]
              exact hkmem
          · dsimp only
            rw [mapKeys_insert_of_mem _ _ _ hkmem]
            exact hB
  | addBeneficiary p i t =>
      have hi : i ∉ stateIds s := opFresh_minted s _ i hf rfl
      simp only [stateIds, List.mem_append] at hi
      push_neg at hi
      obtain ⟨⟨⟨⟨hiu, hiw⟩, hie⟩, hia⟩, hib⟩ := hi
      simp only [applyOp, addBeneficiary]
      cases hg : mapGet s.willsStorage p.willId with
      | none => exact hinv
      | some will =>
          obtain ⟨hnd, hids, hcons, hA, hB⟩ := hinv
          have hmemW : (p.willId, will) ∈ s.willsStorage := mapGet_mem _ _ _ hg
          have hwid : will.id = p.willId := hids _ _ hmemW
          have hkmem : p.willId ∈ mapKeys s.willsStorage := mem_keys_of_get _ _ _ hg
          refine ⟨?_, ?_, ?_, ?_, ?_⟩
          · dsimp only
            rw [mapKeys_insert_of_mem _ _ _ hkmem]
            exact hnd
          · intro k w hmem
            dsimp only at hmem
            rcases mem_mapInsert _ _ _ _ hnd hmem with h1 | h1
            · injection h1 with h1a h1b
              subst h1a
              subst h1b
              exact hwid
            · exact hids k w h1.1
          · intro k w hmem
            dsimp only at hmem ⊢
            rcases mem_mapInsert _ _ _ _ hnd hmem with h1 | h1
            · injection h1 with h1a h1b
              subst h1a
              subst h1b
              unfold willConsistent
              dsimp only
              constructor
              · exact (hcons _ _ hmemW).1
              · rw [mapValues_insert_of_not_mem _ _ _ hib, List.filter_append,
                  ← (hcons _ _ hmemW).2]
                simp [hwid]
            · have hwk : w.id = k := hids _ _ h1.1
              unfold willConsistent
              constructor
              · exact (hcons _ _ h1.1).1
              · rw [mapValues_insert_of_not_mem _ _ _ hib, List.filter_append,
                  ← (hcons _ _ h1.1).2]
                simp [hwk, Ne.symm h1.2]
          · dsimp only
            rw [mapKeys_insert_of_mem _ _ _ hkmem]
            exact hA
          · dsimp only
            rw [mapValues_insert_of_not_mem _ _ _ hib,
              mapKeys_insert_of_mem _ _ _ hkmem]
            intro b hb
            rcases List.mem_append.mp hb with h2 | h2
            · exact hB b h2
            · rw [List.mem_singleton.mp h2]
              exact hkmem
  | assignExecutor p =>
      simp only [applyOp, assignExecutor]
      cases hg : mapGet s.willsStorage p.willId with
      | none => exact hinv
      | some will =>
          cases hge : mapGet s.executorsStorage p.executorId with
          | none => exact hinv
          | some e =>
              obtain ⟨hnd, hids, hcons, hA, hB⟩ := hinv
              have hmemW : (p.willId, will) ∈ s.willsStorage := mapGet_mem _ _ _ hg
              have hwid : will.id = p.willId := hids _ _ hmemW
              have hkmem : p.willId ∈ mapKeys s.willsStorage := mem_keys_of_get _ _ _ hg
              refine ⟨?_, ?_, ?_, ?_, ?_⟩
              · dsimp only
                rw [mapKeys_insert_of_mem _ _ _ hkmem]
                exact hnd
              · intro k w hmem
                dsimp only at hmem
                rcases mem_mapInsert _ _ _ _ hnd hmem with h1 | h1
                · injection h1 with h1a h1b
                  subst h1a
                  subst h1b
                  exact hwid
                · exact hids k w h1.1
              · intro k w hmem
                dsimp only at hmem ⊢
                rcases mem_mapInsert _ _ _ _ hnd hmem with h1 | h1
                · injection h1 with h1a h1b
                  subst h1a
                  subst h1b
                  unfold willConsistent
                  dsimp only
                  exact ⟨(hcons _ _ hmemW).1, (hcons _ _ hmemW).2⟩
                · exact hcons k w h1.1
              · dsimp only
                rw [mapKeys_insert_of_mem _ _ _ hkmem]
                exact hA
              · dsimp only
                rw [mapKeys_insert_of_mem _ _ _ hkmem]
                exact hB

/-- Every reachable state satisfies the invariant. -/
theorem reachable_stateInv (s : CanisterState) (h : Reachable s) : StateInv s := by
  induction h with
  | init => exact stateInv_init
  | step s' op hr hf ih => exact stateInv_step s' op ih hf

/-- The flag invariant only looks at the wills collection. -/
theorem execFlagInv_congr (s s' : CanisterState)
    (hw : s'.willsStorage = s.willsStorage) (h : ExecFlagInv s) : ExecFlagInv s' := by
  unfold ExecFlagInv at h ⊢
  rw [hw]
  exact h

/-- One operation preserves the flag invariant (given duplicate-free will
keys, which every reachable state has). -/
theorem execFlagInv_step (s : CanisterState) (op : Op)
    (hnd : (mapKeys s.willsStorage).Nodup) (hinv : ExecFlagInv s) :
    ExecFlagInv (applyOp s op) := by
  cases op with
  | createUser p i t =>
      refine execFlagInv_congr s _ ?_ hinv
      simp only [applyOp, createUser]
      split <;> rfl
  | createExecutor p i t =>
      refine execFlagInv_congr s _ ?_ hinv
      simp only [applyOp, createExecutor]
      split <;> rfl
  | getUser i => rw [applyOp, getUser_state]; exact hinv
  | getAllUsers => rw [applyOp, getAllUsers_state]; exact hinv
  | getExecutor i => rw [applyOp, getExecutor_state]; exact hinv
  | getAllExecutors => rw [applyOp, getAllExecutors_state]; exact hinv
  | getWill i => rw [applyOp, getWill_state]; exact hinv
  | getAllWills => rw [applyOp, getAllWills_state]; exact hinv
  | createWill p i t =>
      simp only [applyOp, createWill]
      cases hgu : mapGet s.usersStorage p.userId with
      | none => exact hinv
      | some u =>
          cases hge : mapGet s.executorsStorage p.executorId with
          | none => exact hinv
          | some e =>
              intro k w hmem
              dsimp only at hmem
              rcases mem_mapInsert _ _ _ _ hnd hmem with h1 | h1
              · injection h1 with h1a h1b
                subst h1a
                subst h1b
                rfl
              · exact hinv k w h1.1
  | addAsset p i t =>
      simp only [applyOp, addAsset]
      cases hg : mapGet s.willsStorage p.willId with
      | none => exact hinv
      | some will =>
          intro k w hmem
          dsimp only at hmem
          rcases mem_mapInsert _ _ _ _ hnd hmem with h1 | h1
          · injection h1 with h1a h1b
            subst h1a
            subst h1b
            exact hinv p.willId will (mapGet_mem _ _ _ hg)
          · exact hinv k w h1.1
  | addBeneficiary p i t =>
      simp only [applyOp, addBeneficiary]
      cases hg : mapGet s.willsStorage p.willId with
      | none => exact hinv
      | some will =>
          intro k w hmem
          dsimp only at hmem
          rcases mem_mapInsert _ _ _ _ hnd hmem with h1 | h1
          · injection h1 with h1a h1b
            subst h1a
            subst h1b
            exact hinv p.willId will (mapGet_mem _ _ _ hg)
          · exact hinv k w h1.1
  | assignExecutor p =>
      simp only [applyOp, assignExecutor]
      cases hg : mapGet s.willsStorage p.willId with
      | none => exact hinv
      | some will =>
          cases hge : mapGet s.executorsStorage p.executorId with
          | none => exact hinv
          | some e =>
              intro k w hmem
              dsimp only at hmem
              rcases mem_mapInsert _ _ _ _ hnd hmem with h1 | h1
              · injection h1 with h1a h1b
                subst h1a
                subst h1b
                exact hinv p.willId will (mapGet_mem _ _ _ hg)
              · exact hinv k w h1.1

/-- Every reachable state satisfies the flag invariant. -/
theorem reachable_execFlagInv (s : CanisterState) (h : Reachable s) :
    ExecFlagInv s := by
  induction h with
  | init =>
      intro k w hmem
      simp [initState] at hmem
  | step s' op hr hf ih =>
      exact execFlagInv_step s' op (reachable_stateInv s' hr).1 ih

/-- The demo runs are reachable. -/
theorem demoState3_reachable : Reachable demoState3 :=
  reachable_applyOps initState (demoOps.take 3) Reachable.init (by decide)

/-- The full demo run is reachable. -/
theorem demoState_reachable : Reachable demoState :=
  reachable_applyOps initState demoOps Reachable.init (by decide)

/-- C1: in every reachable state, every Will stored in the wills
collection has its embedded `assets` list equal to exactly the Asset
records of the standalone assets collection whose `willId` is that Will's
id, in insertion order, and likewise its `beneficiaries` list; since this
holds in every reachable state, every operation preserves it. -/
theorem dual_write_consistency (s : CanisterState) (h : Reachable s)
    (k : String) (w : Will) (hmem : (k, w) ∈ s.willsStorage) :
    w.assets = (mapValues s.assetsStorage).filter (fun a => a.willId == w.id) ∧
    w.beneficiaries =
      (mapValues s.beneficiariesStorage).filter (fun b => b.willId == w.id) :=
  (reachable_stateInv s h).2.2.1 k w hmem

/-- C1 witness: the invariant evaluated on the concrete demo run. -/
theorem dual_write_consistency_witness :
    (("w1", demoWill) ∈ demoState.willsStorage) ∧
    (demoWill.assets =
        (mapValues demoState.assetsStorage).filter (fun a => a.willId == demoWill.id) ∧
      demoWill.beneficiaries =
        (mapValues demoState.beneficiariesStorage).filter (fun b => b.willId == demoWill.id)) :=
  ⟨by decide, dual_write_consistency demoState demoState_reachable "w1" demoWill (by decide)⟩

/-- C2: for any will id present in the wills collection, after
`addAsset(willId, name, value)` succeeds, `getWill(willId)` returns the
will with a new Asset with that name and value appended to its embedded
list, and the standalone assets collection holds, under the new Asset's
id, a record identical field-for-field to the embedded one. -/
theorem addAsset_post (s : CanisterState) (p : AssetPayload) (assetId : String)
    (now : Nat) (w : Will) (hw : mapGet s.willsStorage p.willId = some w) :
    (addAsset s p assetId now).1 = CanResult.Ok () ∧
    (getWill (addAsset s p assetId now).2 p.willId).1 =
      CanResult.Ok { w with assets := w.assets ++
        [{ id := assetId, willId := p.willId, name := p.name,
           value := p.value, createdAt := now }] } ∧
    mapGet (addAsset s p assetId now).2.assetsStorage assetId =
      some { id := assetId, willId := p.willId, name := p.name,
             value := p.value, createdAt := now } := by
  refine ⟨?_, ?_, ?_⟩
  · simp [addAsset, hw]
  · simp [addAsset, hw, getWill, mapGet_insert_self]
  · simp [addAsset, hw, mapGet_insert_self]

/-- C2 witness: adding the Car asset to the demo will. -/
theorem addAsset_post_witness :
    mapGet demoState3.willsStorage "w1" = some demoWill3 ∧
    ((addAsset demoState3 demoCarPayload "a1" 3).1 = CanResult.Ok () ∧
      (getWill (addAsset demoState3 demoCarPayload "a1" 3).2 "w1").1 =
        CanResult.Ok { demoWill3 with assets := demoWill3.assets ++ [demoCarAsset] } ∧
      mapGet (addAsset demoState3 demoCarPayload "a1" 3).2.assetsStorage "a1" =
        some demoCarAsset) :=
  ⟨by decide, addAsset_post demoState3 demoCarPayload "a1" 3 demoWill3 (by decide)⟩

/-- C3: `createWill` fails exactly when the user id or the executor id is
absent; otherwise it returns a Will with empty asset and beneficiary
lists, `isExecuted = false`, the given `userId` and `executorId`, and
stores that record under the minted id. -/
theorem createWill_spec (s : CanisterState) (p : WillPayload) (newId : String)
    (now : Nat) :
    ((∃ msg, (createWill s p newId now).1 = CanResult.Err msg) ↔
      (mapGet s.usersStorage p.userId = none ∨
        mapGet s.executorsStorage p.executorId = none)) ∧
    (mapGet s.usersStorage p.userId ≠ none →
      mapGet s.executorsStorage p.executorId ≠ none →
      (createWill s p newId now).1 = CanResult.Ok (newWillRecord p newId now) ∧
      mapGet (createWill s p newId now).2.willsStorage newId =
        some (newWillRecord p newId now)) := by
  cases hu : mapGet s.usersStorage p.userId with
  | none =>
      refine ⟨⟨fun _ => Or.inl rfl, fun _ => ⟨"User not found.", ?_⟩⟩,
        fun hne _ => absurd rfl hne⟩
      simp [createWill, hu]
  | some u =>
      cases he : mapGet s.executorsStorage p.executorId with
      | none =>
          refine ⟨⟨fun _ => Or.inr rfl, fun _ => ⟨"Executor not found.", ?_⟩⟩,
            fun _ hne => absurd rfl hne⟩
          simp [createWill, hu, he]
      | some e =>
          refine ⟨⟨?_, ?_⟩, fun _ _ => ⟨?_, ?_⟩⟩
          · rintro ⟨msg, hmsg⟩
            simp [createWill, hu, he] at hmsg
          · rintro (h1 | h1) <;> exact Option.noConfusion h1
          · simp [createWill, hu, he, newWillRecord]
          · simp [createWill, hu, he, mapGet_insert_self, newWillRecord]

/-- C3 witness: `createWill` on the demo state. -/
theorem createWill_spec_witness :
    ((∃ msg,
        (createWill demoState3 { userId := "u1", executorId := "e1" } "w2" 9).1 =
          CanResult.Err msg) ↔
      (mapGet demoState3.usersStorage "u1" = none ∨
        mapGet demoState3.executorsStorage "e1" = none)) ∧
    (mapGet demoState3.usersStorage "u1" ≠ none →
      mapGet demoState3.executorsStorage "e1" ≠ none →
      (createWill demoState3 { userId := "u1", executorId := "e1" } "w2" 9).1 =
        CanResult.Ok (newWillRecord { userId := "u1", executorId := "e1" } "w2" 9) ∧
      mapGet
          (createWill demoState3 { userId := "u1", executorId := "e1" } "w2" 9).2.willsStorage
          "w2" =
        some (newWillRecord { userId := "u1", executorId := "e1" } "w2" 9)) :=
  createWill_spec demoState3 { userId := "u1", executorId := "e1" } "w2" 9

/-- C4: when the will and the executor both exist, `assignExecutor`
succeeds, the stored will afterwards is the old will with only its
`executorId` overwritten (so `id`, `userId`, `assets`, `beneficiaries`,
`createdAt`, `isExecuted` are unchanged), and the users, executors,
assets and beneficiaries collections are unchanged. -/
theorem assignExecutor_frame (s : CanisterState) (p : AssignExecutorPayload)
    (w : Will) (e : Executor)
    (hw : mapGet s.willsStorage p.willId = some w)
    (he : mapGet s.executorsStorage p.executorId = some e) :
    (assignExecutor s p).1 = CanResult.Ok () ∧
    mapGet (assignExecutor s p).2.willsStorage p.willId =
      some { w with executorId := p.executorId } ∧
    (assignExecutor s p).2.usersStorage = s.usersStorage ∧
    (assignExecutor s p).2.executorsStorage = s.executorsStorage ∧
    (assignExecutor s p).2.assetsStorage = s.assetsStorage ∧
    (assignExecutor s p).2.beneficiariesStorage = s.beneficiariesStorage := by
  refine ⟨?_, ?_, ?_, ?_, ?_, ?_⟩ <;>
    simp [assignExecutor, hw, he, mapGet_insert_self]

/-- C4 witness: reassigning the demo will to the second executor. -/
theorem assignExecutor_frame_witness :
    mapGet demoState6.willsStorage "w1" = some demoWill ∧
    mapGet demoState6.executorsStorage "e2" = some demoExecutor2 ∧
    ((assignExecutor demoState6 { willId := "w1", executorId := "e2" }).1 =
        CanResult.Ok () ∧
      mapGet
          (assignExecutor demoState6 { willId := "w1", executorId := "e2" }).2.willsStorage
          "w1" =
        some { demoWill with executorId := "e2" } ∧
      (assignExecutor demoState6 { willId := "w1", executorId := "e2" }).2.usersStorage =
        demoState6.usersStorage ∧
      (assignExecutor demoState6 { willId := "w1", executorId := "e2" }).2.executorsStorage =
        demoState6.executorsStorage ∧
      (assignExecutor demoState6 { willId := "w1", executorId := "e2" }).2.assetsStorage =
        demoState6.assetsStorage ∧
      (assignExecutor demoState6 { willId := "w1", executorId := "e2" }).2.beneficiariesStorage =
        demoState6.beneficiariesStorage) :=
  ⟨by decide, by decide,
    assignExecutor_frame demoState6 { willId := "w1", executorId := "e2" }
      demoWill demoExecutor2 (by decide) (by decide)⟩

/-- C5 counterexample: a whitespace-only name and email are accepted by
`createUser` (JS `!payload.name` is false for a nonempty string of
blanks), so the claim that whitespace-only fields yield a
ValidationError is false. -/
theorem createUser_whitespace_accepted :
    (createUser initState { name := " ", email := " " } "u1" 0).1 =
      CanResult.Ok { id := "u1", name := " ", email := " ", createdAt := 0 } := by
  decide

/-- C5 amended: `createUser` fails with a validation error exactly when
name or email is the empty string, and `createExecutor` exactly when name
or contact is the empty string (whitespace-only strings are accepted;
absent fields cannot occur in the typed payload); on such an error the
state is unchanged. -/
theorem creation_validation (s : CanisterState) (up : UserPayload)
    (ep : ExecutorPayload) (i1 i2 : String) (t1 t2 : Nat) :
    ((∃ msg, (createUser s up i1 t1).1 = CanResult.Err msg) ↔
      (up.name = "" ∨ up.email = "")) ∧
    ((up.name = "" ∨ up.email = "") → (createUser s up i1 t1).2 = s) ∧
    ((∃ msg, (createExecutor s ep i2 t2).1 = CanResult.Err msg) ↔
      (ep.name = "" ∨ ep.contact = "")) ∧
    ((ep.name = "" ∨ ep.contact = "") → (createExecutor s ep i2 t2).2 = s) := by
  refine ⟨?_, ?_, ?_, ?_⟩
  · by_cases hc : up.name = "" ∨ up.email = ""
    · simp only [createUser, if_pos hc]
      exact ⟨fun _ => hc, fun _ => ⟨"Name and email are required.", rfl⟩⟩
    · simp only [createUser, if_neg hc]
      refine ⟨?_, fun h1 => absurd h1 hc⟩
      rintro ⟨msg, hmsg⟩
      exact CanResult.noConfusion hmsg
  · intro hc
    simp only [createUser, if_pos hc]
  · by_cases hc : ep.name = "" ∨ ep.contact = ""
    · simp only [createExecutor, if_pos hc]
      exact ⟨fun _ => hc, fun _ => ⟨"Name and contact are required.", rfl⟩⟩
    · simp only [createExecutor, if_neg hc]
      refine ⟨?_, fun h1 => absurd h1 hc⟩
      rintro ⟨msg, hmsg⟩
      exact CanResult.noConfusion hmsg
  · intro hc
    simp only [createExecutor, if_pos hc]

/-- C5 witness: the amended validation rule on concrete payloads. -/
theorem creation_validation_witness :
    ((∃ msg, (createUser initState { name := "", email := "a@x" } "u9" 7).1 =
        CanResult.Err msg) ↔
      (("" : String) = "" ∨ ("a@x" : String) = "")) ∧
    ((("" : String) = "" ∨ ("a@x" : String) = "") →
      (createUser initState { name := "", email := "a@x" } "u9" 7).2 = initState) ∧
    ((∃ msg, (createExecutor initState { name := "Bo", contact := "" } "e9" 8).1 =
        CanResult.Err msg) ↔
      (("Bo" : String) = "" ∨ ("" : String) = "")) ∧
    ((("Bo" : String) = "" ∨ ("" : String) = "") →
      (createExecutor initState { name := "Bo", contact := "" } "e9" 8).2 = initState) :=
  creation_validation initState { name := "", email := "a@x" }
    { name := "Bo", contact := "" } "u9" "e9" 7 8

/-- C6: each list-all query fails exactly when its collection is empty,
and otherwise returns exactly the records of that collection. -/
theorem getAll_semantics (s : CanisterState) :
    ((∃ msg, (getAllUsers s).1 = CanResult.Err msg) ↔ s.usersStorage = []) ∧
    (s.usersStorage ≠ [] →
      (getAllUsers s).1 = CanResult.Ok (mapValues s.usersStorage)) ∧
    ((∃ msg, (getAllExecutors s).1 = CanResult.Err msg) ↔ s.executorsStorage = []) ∧
    (s.executorsStorage ≠ [] →
      (getAllExecutors s).1 = CanResult.Ok (mapValues s.executorsStorage)) ∧
    ((∃ msg, (getAllWills s).1 = CanResult.Err msg) ↔ s.willsStorage = []) ∧
    (s.willsStorage ≠ [] →
      (getAllWills s).1 = CanResult.Ok (mapValues s.willsStorage)) := by
  refine ⟨⟨?_, ?_⟩, ?_, ⟨?_, ?_⟩, ?_, ⟨?_, ?_⟩, ?_⟩
  · rintro ⟨msg, hmsg⟩
    simp only [getAllUsers] at hmsg
    by_cases hlen : (mapValues s.usersStorage).length = 0
    · exact (mapValues_length_eq_zero_iff _).mp hlen
    · rw [if_neg hlen] at hmsg
      exact CanResult.noConfusion hmsg
  · intro hnil
    exact ⟨"No users found.", by simp [getAllUsers, hnil, mapValues]⟩
  · intro hne
    have hlen : (mapValues s.usersStorage).length ≠ 0 :=
      fun hl => hne ((mapValues_length_eq_zero_iff _).mp hl)
    simp only [getAllUsers, if_neg hlen]
  · rintro ⟨msg, hmsg⟩
    simp only [getAllExecutors] at hmsg
    by_cases hlen : (mapValues s.executorsStorage).length = 0
    · exact (mapValues_length_eq_zero_iff _).mp hlen
    · rw [if_neg hlen] at hmsg
      exact CanResult.noConfusion hmsg
  · intro hnil
    exact ⟨"No executors found.", by simp [getAllExecutors, hnil, mapValues]⟩
  · intro hne
    have hlen : (mapValues s.executorsStorage).length ≠ 0 :=
      fun hl => hne ((mapValues_length_eq_zero_iff _).mp hl)
    simp only [getAllExecutors, if_neg hlen]
  · rintro ⟨msg, hmsg⟩
    simp only [getAllWills] at hmsg
    by_cases hlen : (mapValues s.willsStorage).length = 0
    · exact (mapValues_length_eq_zero_iff _).mp hlen
    · rw [if_neg hlen] at hmsg
      exact CanResult.noConfusion hmsg
  · intro hnil
    exact ⟨"No wills found.", by simp [getAllWills, hnil, mapValues]⟩
  · intro hne
    have hlen : (mapValues s.willsStorage).length ≠ 0 :=
      fun hl => hne ((mapValues_length_eq_zero_iff _).mp hl)
    simp only [getAllWills, if_neg hlen]

/-- C6 witness: the list-all semantics on the demo state. -/
theorem getAll_semantics_witness :
    ((∃ msg, (getAllUsers demoState).1 = CanResult.Err msg) ↔
      demoState.usersStorage = []) ∧
    (demoState.usersStorage ≠ [] →
      (getAllUsers demoState).1 = CanResult.Ok (mapValues demoState.usersStorage)) ∧
    ((∃ msg, (getAllExecutors demoState).1 = CanResult.Err msg) ↔
      demoState.executorsStorage = []) ∧
    (demoState.executorsStorage ≠ [] →
      (getAllExecutors demoState).1 =
        CanResult.Ok (mapValues demoState.executorsStorage)) ∧
    ((∃ msg, (getAllWills demoState).1 = CanResult.Err msg) ↔
      demoState.willsStorage = []) ∧
    (demoState.willsStorage ≠ [] →
      (getAllWills demoState).1 = CanResult.Ok (mapValues demoState.willsStorage)) :=
  getAll_semantics demoState

/-- C7: in every reachable state, every stored will has
`isExecuted = false`: it is set to `false` on creation and no operation
ever changes it. -/
theorem isExecuted_never_true (s : CanisterState) (h : Reachable s)
    (k : String) (w : Will) (hmem : (k, w) ∈ s.willsStorage) :
    w.isExecuted = false :=
  reachable_execFlagInv s h k w hmem

/-- C7 witness: the flag on the demo will. -/
theorem isExecuted_never_true_witness :
    (("w1", demoWill) ∈ demoState.willsStorage) ∧ demoWill.isExecuted = false :=
  ⟨by decide, isExecuted_never_true demoState demoState_reachable "w1" demoWill (by decide)⟩

/-- C8 counterexample: on success, `addAsset`, `addBeneficiary` and
`assignExecutor` all return `Ok(null)` — their result type is
`Result(Null, text)` — so the claim that they return the created or
updated record is false at these concrete successful calls. -/
theorem mutators_return_null :
    (addAsset demoState3 demoCarPayload "a1" 3).1 = CanResult.Ok () ∧
    (addBeneficiary demoState3 { willId := "w1", name := "Carol", share := 100 }
        "b1" 4).1 = CanResult.Ok () ∧
    (assignExecutor demoState3 { willId := "w1", executorId := "e1" }).1 =
      CanResult.Ok () := by
  decide

/-- C8 amended: every successful create operation returns the record it
created (the one it stored), every successful get operation returns the
fetched record (or list of records), while successful calls of
`addAsset`, `addBeneficiary` and `assignExecutor` return `Ok(null)`, not
the record they created or updated. -/
theorem success_output_shape (s : CanisterState)
    (up : UserPayload) (ep : ExecutorPayload) (wp : WillPayload)
    (ap : AssetPayload) (bp : BeneficiaryPayload) (xp : AssignExecutorPayload)
    (uid eid wid : String) (i1 i2 i3 i4 i5 : String) (t1 t2 t3 t4 t5 : Nat) :
    (up.name ≠ "" → up.email ≠ "" →
      (createUser s up i1 t1).1 =
        CanResult.Ok { id := i1, name := up.name, email := up.email, createdAt := t1 } ∧
      mapGet (createUser s up i1 t1).2.usersStorage i1 =
        some { id := i1, name := up.name, email := up.email, createdAt := t1 }) ∧
    (ep.name ≠ "" → ep.contact ≠ "" →
      (createExecutor s ep i2 t2).1 =
        CanResult.Ok { id := i2, name := ep.name, contact := ep.contact, createdAt := t2 } ∧
      mapGet (createExecutor s ep i2 t2).2.executorsStorage i2 =
        some { id := i2, name := ep.name, contact := ep.contact, createdAt := t2 }) ∧
    (mapGet s.usersStorage wp.userId ≠ none →
      mapGet s.executorsStorage wp.executorId ≠ none →
      (createWill s wp i3 t3).1 = CanResult.Ok (newWillRecord wp i3 t3) ∧
      mapGet (createWill s wp i3 t3).2.willsStorage i3 = some (newWillRecord wp i3 t3)) ∧
    (∀ u, mapGet s.usersStorage uid = some u →
      (getUser s uid).1 = CanResult.Ok u) ∧
    (∀ ex, mapGet s.executorsStorage eid = some ex →
      (getExecutor s eid).1 = CanResult.Ok ex) ∧
    (∀ w, mapGet s.willsStorage wid = some w →
      (getWill s wid).1 = CanResult.Ok w) ∧
    (s.usersStorage ≠ [] →
      (getAllUsers s).1 = CanResult.Ok (mapValues s.usersStorage)) ∧
    (s.executorsStorage ≠ [] →
      (getAllExecutors s).1 = CanResult.Ok (mapValues s.executorsStorage)) ∧
    (s.willsStorage ≠ [] →
      (getAllWills s).1 = CanResult.Ok (mapValues s.willsStorage)) ∧
    (mapGet s.willsStorage ap.willId ≠ none →
      (addAsset s ap i4 t4).1 = CanResult.Ok ()) ∧
    (mapGet s.willsStorage bp.willId ≠ none →
      (addBeneficiary s bp i5 t5).1 = CanResult.Ok ()) ∧
    (mapGet s.willsStorage xp.willId ≠ none →
      mapGet s.executorsStorage xp.executorId ≠ none →
      (assignExecutor s xp).1 = CanResult.Ok ()) := by
  refine ⟨?_, ?_, ?_, ?_, ?_, ?_, ?_, ?_, ?_, ?_, ?_, ?_⟩
  · intro h1 h2
    have hc : ¬(up.name = "" ∨ up.email = "") := not_or.mpr ⟨h1, h2⟩
    constructor
    · simp [createUser, if_neg hc]
    · simp [createUser, if_neg hc, mapGet_insert_self]
  · intro h1 h2
    have hc : ¬(ep.name = "" ∨ ep.contact = "") := not_or.mpr ⟨h1, h2⟩
    constructor
    · simp [createExecutor, if_neg hc]
    · simp [createExecutor, if_neg hc, mapGet_insert_self]
  · intro h1 h2
    cases hu : mapGet s.usersStorage wp.userId with
    | none => exact absurd hu h1
    | some u =>
        cases he : mapGet s.executorsStorage wp.executorId with
        | none => exact absurd he h2
        | some ex =>
            constructor
            · simp [createWill, hu, he, newWillRecord]
            · simp [createWill, hu, he, mapGet_insert_self, newWillRecord]
  · intro u hu
    simp [getUser, hu]
  · intro ex he
    simp [getExecutor, he]
  · intro w hw
    simp [getWill, hw]
  · intro hne
    have hlen : (mapValues s.usersStorage).length ≠ 0 :=
      fun hl => hne ((mapValues_length_eq_zero_iff _).mp hl)
    simp only [getAllUsers, if_neg hlen]
  · intro hne
    have hlen : (mapValues s.executorsStorage).length ≠ 0 :=
      fun hl => hne ((mapValues_length_eq_zero_iff _).mp hl)
    simp only [getAllExecutors, if_neg hlen]
  · intro hne
    have hlen : (mapValues s.willsStorage).length ≠ 0 :=
      fun hl => hne ((mapValues_length_eq_zero_iff _).mp hl)
    simp only [getAllWills, if_neg hlen]
  · intro h1
    cases hg : mapGet s.willsStorage ap.willId with
    | none => exact absurd hg h1
    | some w => simp [addAsset, hg]
  · intro h1
    cases hg : mapGet s.willsStorage bp.willId with
    | none => exact absurd hg h1
    | some w => simp [addBeneficiary, hg]
  · intro h1 h2
    cases hg : mapGet s.willsStorage xp.willId with
    | none => exact absurd hg h1
    | some w =>
        cases he : mapGet s.executorsStorage xp.executorId with
        | none => exact absurd he h2
        | some ex => simp [assignExecutor, hg, he]

/-- C8 witness: the amended output shape at the demo state, for every
operation of the surface. -/
theorem success_output_shape_witness :
    ((("Pat" : String) ≠ "" → ("p@x.com" : String) ≠ "" →
      (createUser demoState3 { name := "Pat", email := "p@x.com" } "u2" 10).1 =
        CanResult.Ok { id := "u2", name := "Pat", email := "p@x.com", createdAt := 10 } ∧
      mapGet (createUser demoState3 { name := "Pat", email := "p@x.com" } "u2" 10).2.usersStorage
          "u2" =
        some { id := "u2", name := "Pat", email := "p@x.com", createdAt := 10 }) ∧
    (("Quinn" : String) ≠ "" → ("q@x.com" : String) ≠ "" →
      (createExecutor demoState3 { name := "Quinn", contact := "q@x.com" } "e9" 11).1 =
        CanResult.Ok { id := "e9", name := "Quinn", contact := "q@x.com", createdAt := 11 } ∧
      mapGet
          (createExecutor demoState3 { name := "Quinn", contact := "q@x.com" }
            "e9" 11).2.executorsStorage "e9" =
        some { id := "e9", name := "Quinn", contact := "q@x.com", createdAt := 11 }) ∧
    (mapGet demoState3.usersStorage "u1" ≠ none →
      mapGet demoState3.executorsStorage "e1" ≠ none →
      (createWill demoState3 { userId := "u1", executorId := "e1" } "w3" 12).1 =
        CanResult.Ok (newWillRecord { userId := "u1", executorId := "e1" } "w3" 12) ∧
      mapGet
          (createWill demoState3 { userId := "u1", executorId := "e1" } "w3" 12).2.willsStorage
          "w3" =
        some (newWillRecord { userId := "u1", executorId := "e1" } "w3" 12)) ∧
    (∀ u, mapGet demoState3.usersStorage "u1" = some u →
      (getUser demoState3 "u1").1 = CanResult.Ok u) ∧
    (∀ ex, mapGet demoState3.executorsStorage "e1" = some ex →
      (getExecutor demoState3 "e1").1 = CanResult.Ok ex) ∧
    (∀ w, mapGet demoState3.willsStorage "w1" = some w →
      (getWill demoState3 "w1").1 = CanResult.Ok w) ∧
    (demoState3.usersStorage ≠ [] →
      (getAllUsers demoState3).1 = CanResult.Ok (mapValues demoState3.usersStorage)) ∧
    (demoState3.executorsStorage ≠ [] →
      (getAllExecutors demoState3).1 =
        CanResult.Ok (mapValues demoState3.executorsStorage)) ∧
    (demoState3.willsStorage ≠ [] →
      (getAllWills demoState3).1 = CanResult.Ok (mapValues demoState3.willsStorage)) ∧
    (mapGet demoState3.willsStorage "w1" ≠ none →
      (addAsset demoState3 demoCarPayload "a2" 13).1 = CanResult.Ok ()) ∧
    (mapGet demoState3.willsStorage "w1" ≠ none →
      (addBeneficiary demoState3 { willId := "w1", name := "Dan", share := 50 }
          "b2" 14).1 = CanResult.Ok ()) ∧
    (mapGet demoState3.willsStorage "w1" ≠ none →
      mapGet demoState3.executorsStorage "e1" ≠ none →
      (assignExecutor demoState3 { willId := "w1", executorId := "e1" }).1 =
        CanResult.Ok ())) :=
  success_output_shape demoState3
    { name := "Pat", email := "p@x.com" } { name := "Quinn", contact := "q@x.com" }
    { userId := "u1", executorId := "e1" } demoCarPayload
    { willId := "w1", name := "Dan", share := 50 }
    { willId := "w1", executorId := "e1" }
    "u1" "e1" "w1" "u2" "e9" "w3" "a2" "b2" 10 11 12 13 14

/-- C9: `getUser`, `getExecutor` and `getWill` leave the state unchanged,
and calling one twice with no intervening write returns identical
results. -/
theorem query_idempotent (s : CanisterState) (i1 i2 i3 : String) :
    (getUser s i1).2 = s ∧
    (getUser ((getUser s i1).2) i1).1 = (getUser s i1).1 ∧
    (getExecutor s i2).2 = s ∧
    (getExecutor ((getExecutor s i2).2) i2).1 = (getExecutor s i2).1 ∧
    (getWill s i3).2 = s ∧
    (getWill ((getWill s i3).2) i3).1 = (getWill s i3).1 :=
  ⟨getUser_state s i1, by rw [getUser_state], getExecutor_state s i2,
    by rw [getExecutor_state], getWill_state s i3, by rw [getWill_state]⟩

/-- C10: whenever an operation returns an error, the whole state — all
five collections — is exactly as before the call; no partial write is
visible after a failure. -/
theorem error_atomicity (s : CanisterState) (op : Op) (msg : String)
    (h : opErr s op = some msg) : applyOp s op = s := by
  cases op with
  | createUser p i t =>
      by_cases hc : p.name = "" ∨ p.email = ""
      · simp [applyOp, createUser, hc]
      · simp [opErr, createUser, hc] at h
  | createExecutor p i t =>
      by_cases hc : p.name = "" ∨ p.contact = ""
      · simp [applyOp, createExecutor, hc]
      · simp [opErr, createExecutor, hc] at h
  | createWill p i t =>
      cases hu : mapGet s.usersStorage p.userId with
      | none => simp [applyOp, createWill, hu]
      | some u =>
          cases he : mapGet s.executorsStorage p.executorId with
          | none => simp [applyOp, createWill, hu, he]
          | some e => simp [opErr, createWill, hu, he] at h
  | addAsset p i t =>
      cases hg : mapGet s.willsStorage p.willId with
      | none => simp [applyOp, addAsset, hg]
      | some will => simp [opErr, addAsset, hg] at h
  | addBeneficiary p i t =>
      cases hg : mapGet s.willsStorage p.willId with
      | none => simp [applyOp, addBeneficiary, hg]
      | some will => simp [opErr, addBeneficiary, hg] at h
  | assignExecutor p =>
      cases hg : mapGet s.willsStorage p.willId with
      | none => simp [applyOp, assignExecutor, hg]
      | some will =>
          cases he : mapGet s.executorsStorage p.executorId with
          | none => simp [applyOp, assignExecutor, hg, he]
          | some e => simp [opErr, assignExecutor, hg, he] at h
  | getUser i => rw [applyOp, getUser_state]
  | getAllUsers => rw [applyOp, getAllUsers_state]
  | getExecutor i => rw [applyOp, getExecutor_state]
  | getAllExecutors => rw [applyOp, getAllExecutors_state]
  | getWill i => rw [applyOp, getWill_state]
  | getAllWills => rw [applyOp, getAllWills_state]

/-- C10 witness: `assignExecutor` with an existing will but a missing
executor fails and leaves the state untouched. -/
theorem error_atomicity_witness :
    opErr demoState3 (Op.assignExecutor { willId := "w1", executorId := "ghost" }) =
      some "Executor not found." ∧
    applyOp demoState3 (Op.assignExecutor { willId := "w1", executorId := "ghost" }) =
      demoState3 :=
  ⟨by decide,
    error_atomicity demoState3
      (Op.assignExecutor { willId := "w1", executorId := "ghost" })
      "Executor not found." (by decide)⟩

end DigitalWill
